import Mathlib

/-!
ChipCounter: the tuned character-count shim and its test harness.

A shallow embedding of `ChipCounter/CounterFiles/charcount_tuned.c`.

* Machine integers are natural numbers reduced modulo `2 ^ w` at every place
  where C converts or could wrap.
* The program targets RISC-V (it issues a `fence` and a RoCC custom
  instruction), so `unsigned long` is 64 bits wide, `unsigned int` is 32 bits
  wide and plain `char` is an unsigned 8-bit type.
* Side effects (the fence, every `printf`, the custom instruction) are recorded
  in program order in a list of `Effect`s returned next to the value.
* The accelerator behind `ROCC_INSTRUCTION_DSS` is a parameter of the model.
-/

namespace ChipCounter

/-! ## Machine types -/

/-- Number of values of `unsigned long` on the RV64 target. -/
def ULONG_MOD : Nat := 2 ^ 64

/-- Number of values of `unsigned int`. -/
def UINT_MOD : Nat := 2 ^ 32

/-- Number of values of `char`. -/
def CHAR_MOD : Nat := 2 ^ 8

/-- Signedness of plain `char`.  C leaves it to the platform; the RISC-V ABI,
the only one this file can be built for, makes plain `char` unsigned. -/
def CHAR_IS_SIGNED : Bool := false

/-- The C conversion `(unsigned long)needle` of a `char` whose byte is `b`:
zero extension for an unsigned `char`, sign extension for a signed one. -/
def charToULong (charSigned : Bool) (b : Nat) : Nat :=
  if charSigned && decide (128 ≤ b % CHAR_MOD) then
    ULONG_MOD - CHAR_MOD + b % CHAR_MOD
  else
    b % CHAR_MOD

/-- The C conversion `(unsigned long)chunk_size` of an `unsigned int`. -/
def uintToULong (c : Nat) : Nat :=
  (c % UINT_MOD) % ULONG_MOD

/-- The initialiser expression of `rs2_value`, for either signedness of `char`:
`((unsigned long)needle) | (((unsigned long)chunk_size & 0xF) << 8)`. -/
def rs2_value_abi (charSigned : Bool) (needle chunk_size : Nat) : Nat :=
  (charToULong charSigned needle ||| (((uintToULong chunk_size &&& 0xF) <<< 8) % ULONG_MOD))
    % ULONG_MOD

/-- The operand word `rs2_value` of `count_chars_tuned` on the target. -/
def rs2_value (needle chunk_size : Nat) : Nat :=
  rs2_value_abi CHAR_IS_SIGNED needle chunk_size

/-! ## Effects and the accelerator -/

/-- One observable step of the program. -/
inductive Effect where
  /-- The statement `asm volatile ("fence")`. -/
  | fence : Effect
  /-- A call of `printf`: its format string and its numeric arguments. -/
  | printf : String → List Nat → Effect
  /-- The custom instruction: opcode selector, `rs1`, `rs2`, last macro argument. -/
  | rocc : Nat → Nat → Nat → Nat → Effect
  deriving DecidableEq, Repr

/-- Behaviour of the accelerator reached by `ROCC_INSTRUCTION_DSS(X, rd, rs1, rs2, f)`:
the value written to `rd` as a function of `X`, `rs1`, `rs2` and `f`.
The header `rocc.h` that defines the instruction form is not part of the sources,
so the behaviour stays a parameter. -/
abbrev Accel : Type := Nat → Nat → Nat → Nat → Nat

/-- The shim `count_chars_tuned(start, needle, chunk_size)`: returned count and the
effects in program order. -/
def count_chars_tuned (accel : Accel) (start needle chunk_size : Nat) : Nat × List Effect :=
  let rs2 := rs2_value needle chunk_size
  let count := accel 2 start rs2 0 % ULONG_MOD
  (count,
    [ Effect.fence,
      Effect.printf "Counting '%c' with chunk size %u starting at address %p\n"
        [needle % CHAR_MOD, chunk_size % UINT_MOD, start],
      Effect.printf "\n" [],
      Effect.printf "DEBUG: rs2_value = 0x%lx\n" [rs2],
      Effect.rocc 2 start rs2 0,
      Effect.printf "Finished count result: %lu\n" [count] ])

/-- The character constant passed by `main` as needle. -/
def NEEDLE : Nat := ('o').toNat

/-- The harness `main`, for a buffer placed at address `stringAddr`: exit status and
the effects in program order. -/
def main (accel : Accel) (stringAddr : Nat) : Int × List Effect :=
  let r := count_chars_tuned accel stringAddr NEEDLE 4
  let count := r.1
  let pre := [Effect.printf "Full string: \"%s\"\n" [stringAddr]] ++ r.2 ++
    [Effect.printf "Count of 'o': %lu\n" [count], Effect.printf "Expected: 4\n" []]
  if count = 4 then
    (0, pre ++ [Effect.printf "TEST PASSED: Basic functionality works!\n" []])
  else
    (1, pre ++ [Effect.printf "TEST FAILED: Expected 4, got %lu\n" [count]])

/-! ## Reading a trace -/

/-- Number of fences in a trace. -/
def fenceCount : List Effect → Nat
  | [] => 0
  | Effect.fence :: rest => fenceCount rest + 1
  | _ :: rest => fenceCount rest

/-- The custom instructions of a trace, in order, each with its four arguments. -/
def roccCalls : List Effect → List (Nat × Nat × Nat × Nat)
  | [] => []
  | Effect.rocc x a b f :: rest => (x, a, b, f) :: roccCalls rest
  | _ :: rest => roccCalls rest

/-- Whether an effect is the custom instruction. -/
def Effect.isRocc : Effect → Bool
  | Effect.rocc _ _ _ _ => true
  | _ => false

/-- The effect directly preceding the first custom instruction of a trace, if any. -/
def effectBeforeRocc : List Effect → Option Effect
  | [] => none
  | [_] => none
  | e :: e2 :: rest => if e2.isRocc then some e else effectBeforeRocc (e2 :: rest)

/-- The effects of a trace up to, and without, its first custom instruction. -/
def untilRocc : List Effect → Option (List Effect)
  | [] => none
  | e :: rest => if e.isRocc then some [] else (untilRocc rest).map (fun l => e :: l)

/-- The effects strictly between the first fence of a trace and the first custom
instruction after it, if both occur. -/
def effectsBetween : List Effect → Option (List Effect)
  | [] => none
  | Effect.fence :: rest => untilRocc rest
  | _ :: rest => effectsBetween rest

/-! ## A reference accelerator -/

end ChipCounter

namespace ChipCounter

/-! ## Arithmetic reading of the bit operations -/

theorem and_0xF_eq_mod (x : Nat) : x &&& 0xF = x % 16 :=
  Nat.and_pow_two_sub_one_eq_mod x 4

theorem and_0xFF_eq_mod (x : Nat) : x &&& 0xFF = x % 256 :=
  Nat.and_pow_two_sub_one_eq_mod x 8

theorem shr8_eq_div (x : Nat) : x >>> 8 = x / 256 :=
  Nat.shiftRight_eq_div_pow x 8

theorem shl8_eq_mul (x : Nat) : x <<< 8 = x * 256 :=
  Nat.shiftLeft_eq x 8

/-- A byte and a value shifted above it combine without carry. -/
theorem byte_lor_shl8 (n k : Nat) (hn : n < 256) : n ||| (k <<< 8) = n + 256 * k := by
  have h : 2 ^ 8 * k + n = 2 ^ 8 * k ||| n := Nat.mul_add_lt_is_or (by omega) k
  have e : (2 : Nat) ^ 8 = 256 := by norm_num
  rw [e] at h
  rw [shl8_eq_mul, Nat.lor_comm, Nat.mul_comm k 256, ← h]
  omega

/-- On the target a `char` is converted to `unsigned long` by zero extension. -/
theorem charToULong_target (n : Nat) (hn : n < 256) : charToULong CHAR_IS_SIGNED n = n := by
  simp only [charToULong, CHAR_IS_SIGNED, CHAR_MOD, Bool.false_and, Bool.false_eq_true, if_false]
  omega

/-- The operand word as a sum: the needle plus 256 times the low nibble of `chunk_size`. -/
theorem rs2_value_eq_add (n c : Nat) (hn : n < 256) : rs2_value n c = n + 256 * (c % 16) := by
  unfold rs2_value rs2_value_abi
  rw [charToULong_target n hn]
  unfold uintToULong UINT_MOD ULONG_MOD
  rw [and_0xF_eq_mod]
  have e1 : c % 2 ^ 32 % 2 ^ 64 % 16 = c % 16 := by omega
  have e2 : ((c % 16) <<< 8) % 2 ^ 64 = (c % 16) <<< 8 := by
    rw [shl8_eq_mul]; omega
  rw [e1, e2, byte_lor_shl8 n (c % 16) hn]
  omega

/-- The expression `n | ((c & 0xF) << 8)` over the naturals, as a sum. -/
theorem packed_eq_add (n c : Nat) (hn : n < 256) :
    n ||| ((c &&& 0xF) <<< 8) = n + 256 * (c % 16) := by
  rw [and_0xF_eq_mod, byte_lor_shl8 n (c % 16) hn]

/-- With a signed plain `char` the conversion of the byte 0x80 would sign-extend: the
packing relies on the unsigned `char` of the target. -/
theorem rs2_value_abi_signed_char_high_byte :
    rs2_value_abi true 128 0 = 2 ^ 64 - 128 ∧ rs2_value_abi false 128 0 = 128 := by
  constructor <;> decide

/-- The custom instructions issued by the shim: one, with the operand word as `rs2`. -/
theorem roccCalls_count_chars_tuned (accel : Accel) (start n c : Nat) :
    roccCalls (count_chars_tuned accel start n c).2 = [(2, start, rs2_value n c, 0)] := by
  simp [count_chars_tuned, roccCalls]

end ChipCounter

namespace ChipCounter

/-! ## The operand word -/

/-- C1: for a needle byte `n` in 0..255 and a chunk size `c` (any value, so every one
in 0..15), the operand word
computed by `count_chars_tuned` is `n | ((c & 0xF) << 8)`, the conversion of the needle
to `unsigned long` sets no bit above bit 7 (it yields `n` itself, also for 128..255),
and that word is the `rs2` operand of the one instruction handed to the accelerator. -/
theorem rs2_value_packs_needle_and_chunk (accel : Accel) (start n c : Nat)
    (hn : n < 256) :
    rs2_value n c = n ||| ((c &&& 0xF) <<< 8)
      ∧ charToULong CHAR_IS_SIGNED n = n
      ∧ roccCalls (count_chars_tuned accel start n c).2
          = [(2, start, n ||| ((c &&& 0xF) <<< 8), 0)] := by
  have h : rs2_value n c = n ||| ((c &&& 0xF) <<< 8) := by
    rw [rs2_value_eq_add n c hn, packed_eq_add n c hn]
  refine ⟨h, charToULong_target n hn, ?_⟩
  rw [roccCalls_count_chars_tuned, h]

/-- C1 at the needle byte 0xC8 (above 127) and chunk size 9. -/
theorem rs2_value_packs_needle_and_chunk_witness :
    200 < 256 ∧
    (rs2_value 200 9 = 200 ||| ((9 &&& 0xF) <<< 8)
      ∧ charToULong CHAR_IS_SIGNED 200 = 200
      ∧ roccCalls (count_chars_tuned (fun _ _ _ _ => 0) 4096 200 9).2
          = [(2, 4096, 200 ||| ((9 &&& 0xF) <<< 8), 0)]) :=
  ⟨by decide,
    rs2_value_packs_needle_and_chunk (fun _ _ _ _ => 0) 4096 200 9 (by decide)⟩

/-- C2: round trip.  For needle bytes in 0..255 and chunk sizes in 0..15, bits 7:0 of
the operand word are the needle and bits 11:8 are the chunk size; hence two such pairs
with the same operand word are equal. -/
theorem rs2_value_round_trip (n c m d : Nat)
    (hn : n < 256) (hc : c < 16) (hm : m < 256) (hd : d < 16) :
    rs2_value n c &&& 0xFF = n
      ∧ (rs2_value n c >>> 8) &&& 0xF = c
      ∧ (rs2_value n c = rs2_value m d → n = m ∧ c = d) := by
  rw [and_0xFF_eq_mod, and_0xF_eq_mod, shr8_eq_div, rs2_value_eq_add n c hn,
    rs2_value_eq_add m d hm]
  omega

/-- C2 at needle bytes 200, 111 and chunk sizes 9, 4. -/
theorem rs2_value_round_trip_witness :
    (200 < 256 ∧ 9 < 16 ∧ 111 < 256 ∧ 4 < 16) ∧
    (rs2_value 200 9 &&& 0xFF = 200
      ∧ (rs2_value 200 9 >>> 8) &&& 0xF = 9
      ∧ (rs2_value 200 9 = rs2_value 111 4 → 200 = 111 ∧ 9 = 4)) :=
  ⟨by decide,
    rs2_value_round_trip 200 9 111 4 (by decide) (by decide) (by decide) (by decide)⟩

/-- C3: for a needle byte and any chunk size (every `unsigned int` value, also above
15), the operand word is below
4096, so every bit from bit 12 up is zero; bits 7:0 do not depend on the chunk size
and bits 11:8 do not depend on the needle. -/
theorem rs2_value_fields_disjoint (n c : Nat) (hn : n < 256) :
    rs2_value n c < 4096
      ∧ (∀ i, 12 ≤ i → (rs2_value n c).testBit i = false)
      ∧ (∀ d, rs2_value n d &&& 0xFF = rs2_value n c &&& 0xFF)
      ∧ (∀ m, m < 256 → (rs2_value m c >>> 8) &&& 0xF = (rs2_value n c >>> 8) &&& 0xF) := by
  have hlt : rs2_value n c < 4096 := by
    rw [rs2_value_eq_add n c hn]; omega
  refine ⟨hlt, ?_, ?_, ?_⟩
  · intro i hi
    apply Nat.testBit_lt_two_pow
    calc rs2_value n c < 2 ^ 12 := hlt
      _ ≤ 2 ^ i := Nat.pow_le_pow_right (by norm_num) hi
  · intro d
    rw [and_0xFF_eq_mod, and_0xFF_eq_mod, rs2_value_eq_add n c hn, rs2_value_eq_add n d hn]
    omega
  · intro m hm
    rw [and_0xF_eq_mod, and_0xF_eq_mod, shr8_eq_div, shr8_eq_div, rs2_value_eq_add n c hn,
      rs2_value_eq_add m c hm]
    omega

/-- C3 at the needle byte 255 and the largest `unsigned int` chunk size. -/
theorem rs2_value_fields_disjoint_witness :
    255 < 256 ∧
    (rs2_value 255 4294967295 < 4096
      ∧ (∀ i, 12 ≤ i → (rs2_value 255 4294967295).testBit i = false)
      ∧ (∀ d, rs2_value 255 d &&& 0xFF = rs2_value 255 4294967295 &&& 0xFF)
      ∧ (∀ m, m < 256 →
          (rs2_value m 4294967295 >>> 8) &&& 0xF = (rs2_value 255 4294967295 >>> 8) &&& 0xF)) :=
  ⟨by decide, rs2_value_fields_disjoint 255 4294967295 (by decide)⟩

/-- C4: for a needle byte and any chunk size `c` (every `unsigned int` value, also
above 15), the operand word for
`c` and the operand word for `c & 0xF` are the same; the model is a total function, so
no value of `c` makes it fail. -/
theorem rs2_value_remask (n c : Nat) (hn : n < 256) :
    rs2_value n c = rs2_value n (c &&& 0xF) := by
  rw [and_0xF_eq_mod, rs2_value_eq_add n c hn, rs2_value_eq_add n (c % 16) hn]
  omega

/-- C4 at the needle byte 111 and chunk size 0x1234. -/
theorem rs2_value_remask_witness :
    111 < 256 ∧ rs2_value 111 0x1234 = rs2_value 111 (0x1234 &&& 0xF) :=
  ⟨by decide, rs2_value_remask 111 0x1234 (by decide)⟩

/-- C9: for a needle byte and any chunk size (every `unsigned int` value) whose low
four bits are all ones, bits 11:8 of the operand word are 0xF and no bit above bit 11 is set. -/
theorem rs2_value_max_chunk (n c : Nat) (hn : n < 256)
    (hlow : c &&& 0xF = 15) :
    (rs2_value n c >>> 8) &&& 0xF = 0xF
      ∧ rs2_value n c >>> 12 = 0
      ∧ (∀ i, 12 ≤ i → (rs2_value n c).testBit i = false) := by
  rw [and_0xF_eq_mod] at hlow
  have hlt : rs2_value n c < 4096 := by
    rw [rs2_value_eq_add n c hn]; omega
  refine ⟨?_, ?_, ?_⟩
  · rw [and_0xF_eq_mod, shr8_eq_div, rs2_value_eq_add n c hn]
    omega
  · rw [Nat.shiftRight_eq_div_pow]
    exact Nat.div_eq_of_lt hlt
  · intro i hi
    apply Nat.testBit_lt_two_pow
    calc rs2_value n c < 2 ^ 12 := hlt
      _ ≤ 2 ^ i := Nat.pow_le_pow_right (by norm_num) hi

/-- C9 at the needle byte 111 and chunk size 0xFFFFFFFF. -/
theorem rs2_value_max_chunk_witness :
    (111 < 256 ∧ 0xFFFFFFFF &&& 0xF = 15) ∧
    ((rs2_value 111 0xFFFFFFFF >>> 8) &&& 0xF = 0xF
      ∧ rs2_value 111 0xFFFFFFFF >>> 12 = 0
      ∧ (∀ i, 12 ≤ i → (rs2_value 111 0xFFFFFFFF).testBit i = false)) :=
  ⟨by decide, rs2_value_max_chunk 111 0xFFFFFFFF (by decide) (by decide)⟩

/-- C10: for the needle byte 0 and chunk size 0 the operand word is 0, and for the
needle byte 0 the operand word is 0 exactly when `chunk_size & 0xF` is 0. -/
theorem rs2_value_zero_needle (c : Nat) :
    rs2_value 0 0 = 0 ∧ (rs2_value 0 c = 0 ↔ c &&& 0xF = 0) := by
  rw [and_0xF_eq_mod, rs2_value_eq_add 0 c (by norm_num), rs2_value_eq_add 0 0 (by norm_num)]
  omega

end ChipCounter

namespace ChipCounter

/-! ## The shim and the harness -/

/-- The operand word of the embedded scenario: needle `'o'`, chunk size 4. -/
theorem rs2_value_scenario : NEEDLE = 111 ∧ rs2_value NEEDLE 4 = 0x46F := by
  constructor <;> decide

/-- C5: for every accelerator whose result is an `unsigned long` value, every address
`start`, needle byte and chunk size, `count_chars_tuned` returns the value the
accelerator produces for opcode 2, `start`, the operand word `n | ((c & 0xF) << 8)` and
last operand 0, unchanged, and that invocation is the only one it makes. -/
theorem count_chars_tuned_returns_accel_result (accel : Accel) (start n c : Nat)
    (hn : n < 256) (hacc : ∀ x a b f, accel x a b f < 2 ^ 64) :
    (count_chars_tuned accel start n c).1 = accel 2 start (n ||| ((c &&& 0xF) <<< 8)) 0
      ∧ roccCalls (count_chars_tuned accel start n c).2
          = [(2, start, n ||| ((c &&& 0xF) <<< 8), 0)] := by
  have h : rs2_value n c = n ||| ((c &&& 0xF) <<< 8) := by
    rw [rs2_value_eq_add n c hn, packed_eq_add n c hn]
  constructor
  · show accel 2 start (rs2_value n c) 0 % ULONG_MOD = _
    rw [h]
    exact Nat.mod_eq_of_lt (hacc 2 start _ 0)
  · rw [roccCalls_count_chars_tuned, h]

/-- C5 for an accelerator that answers with the sum of its operands modulo `2 ^ 64`. -/
theorem count_chars_tuned_returns_accel_result_witness :
    (200 < 256 ∧ ∀ x a b f, (fun x a b f => (x + a + b + f) % 2 ^ 64) x a b f < 2 ^ 64) ∧
    ((count_chars_tuned (fun x a b f => (x + a + b + f) % 2 ^ 64) 4096 200 0x29).1
        = (fun x a b f => (x + a + b + f) % 2 ^ 64) 2 4096 (200 ||| ((0x29 &&& 0xF) <<< 8)) 0
      ∧ roccCalls (count_chars_tuned (fun x a b f => (x + a + b + f) % 2 ^ 64) 4096 200 0x29).2
          = [(2, 4096, 200 ||| ((0x29 &&& 0xF) <<< 8), 0)]) :=
  ⟨⟨by decide, fun x a b f => Nat.mod_lt _ (by norm_num)⟩,
    count_chars_tuned_returns_accel_result (fun x a b f => (x + a + b + f) % 2 ^ 64) 4096 200 0x29
      (by decide) (fun x a b f => Nat.mod_lt _ (by norm_num))⟩

/-- The count the shim hands back in the embedded scenario. -/
theorem count_chars_tuned_scenario (accel : Accel) (stringAddr : Nat) :
    count_chars_tuned accel stringAddr NEEDLE 4
      = (accel 2 stringAddr 0x46F 0 % 2 ^ 64,
          [ Effect.fence,
            Effect.printf "Counting '%c' with chunk size %u starting at address %p\n"
              [111, 4, stringAddr],
            Effect.printf "\n" [],
            Effect.printf "DEBUG: rs2_value = 0x%lx\n" [0x46F],
            Effect.rocc 2 stringAddr 0x46F 0,
            Effect.printf "Finished count result: %lu\n" [accel 2 stringAddr 0x46F 0 % 2 ^ 64] ]) := by
  obtain ⟨hN, hw⟩ := rs2_value_scenario
  unfold count_chars_tuned
  simp only [hw]
  simp [hN, ULONG_MOD, CHAR_MOD, UINT_MOD]

/-- The run of `main` when the accelerator answers 4. -/
theorem main_of_count_eq (accel : Accel) (stringAddr : Nat)
    (h4 : accel 2 stringAddr 0x46F 0 % 2 ^ 64 = 4) :
    main accel stringAddr = (0,
      [ Effect.printf "Full string: \"%s\"\n" [stringAddr],
        Effect.fence,
        Effect.printf "Counting '%c' with chunk size %u starting at address %p\n"
          [111, 4, stringAddr],
        Effect.printf "\n" [],
        Effect.printf "DEBUG: rs2_value = 0x%lx\n" [0x46F],
        Effect.rocc 2 stringAddr 0x46F 0,
        Effect.printf "Finished count result: %lu\n" [4],
        Effect.printf "Count of 'o': %lu\n" [4],
        Effect.printf "Expected: 4\n" [],
        Effect.printf "TEST PASSED: Basic functionality works!\n" [] ]) := by
  unfold main
  rw [count_chars_tuned_scenario, h4]
  simp

/-- The run of `main` when the accelerator answers anything but 4. -/
theorem main_of_count_ne (accel : Accel) (stringAddr : Nat)
    (h4 : accel 2 stringAddr 0x46F 0 % 2 ^ 64 ≠ 4) :
    main accel stringAddr = (1,
      [ Effect.printf "Full string: \"%s\"\n" [stringAddr],
        Effect.fence,
        Effect.printf "Counting '%c' with chunk size %u starting at address %p\n"
          [111, 4, stringAddr],
        Effect.printf "\n" [],
        Effect.printf "DEBUG: rs2_value = 0x%lx\n" [0x46F],
        Effect.rocc 2 stringAddr 0x46F 0,
        Effect.printf "Finished count result: %lu\n" [accel 2 stringAddr 0x46F 0 % 2 ^ 64],
        Effect.printf "Count of 'o': %lu\n" [accel 2 stringAddr 0x46F 0 % 2 ^ 64],
        Effect.printf "Expected: 4\n" [],
        Effect.printf "TEST FAILED: Expected 4, got %lu\n"
          [accel 2 stringAddr 0x46F 0 % 2 ^ 64] ]) := by
  unfold main
  rw [count_chars_tuned_scenario]
  simp only [if_neg h4]
  simp

/-- C6: for every accelerator and buffer address, `main` makes exactly one accelerator
invocation, through one run of the shim on the buffer address with needle `'o'` and
chunk size 4 (one fence, one instruction with operand word 0x46F); its exit status is 0
exactly when the count read back from that invocation is 4 and is 1 for every other
count, so it is always 0 or 1. -/
theorem main_exit_status (accel : Accel) (stringAddr : Nat) :
    roccCalls (main accel stringAddr).2 = [(2, stringAddr, 0x46F, 0)]
      ∧ roccCalls (main accel stringAddr).2
          = roccCalls (count_chars_tuned accel stringAddr NEEDLE 4).2
      ∧ fenceCount (main accel stringAddr).2 = 1
      ∧ ((main accel stringAddr).1 = 0 ↔ (count_chars_tuned accel stringAddr NEEDLE 4).1 = 4)
      ∧ ((main accel stringAddr).1 = 1 ↔ (count_chars_tuned accel stringAddr NEEDLE 4).1 ≠ 4)
      ∧ ((main accel stringAddr).1 = 0 ∨ (main accel stringAddr).1 = 1) := by
  rw [count_chars_tuned_scenario]
  by_cases h4 : accel 2 stringAddr 0x46F 0 % 2 ^ 64 = 4
  · rw [main_of_count_eq accel stringAddr h4]
    have h4n := h4
    norm_num at h4n
    simp [roccCalls, fenceCount, h4n]
  · rw [main_of_count_ne accel stringAddr h4]
    have h4n := h4
    norm_num at h4n
    simp [roccCalls, fenceCount, h4n]

end ChipCounter

namespace ChipCounter

/-! ## The embedded scenario on a reference accelerator -/

end ChipCounter

namespace ChipCounter

/-- C8, as stated, fails: in the call with needle `'o'` and chunk size 4 the effect
directly preceding the accelerator instruction is the `printf` of the operand word, not
the fence. -/
theorem fence_not_directly_before_rocc :
    effectBeforeRocc (count_chars_tuned (fun _ _ _ _ => 0) 4096 111 4).2
        = some (Effect.printf "DEBUG: rs2_value = 0x%lx\n" [0x46F])
      ∧ effectBeforeRocc (count_chars_tuned (fun _ _ _ _ => 0) 4096 111 4).2
        ≠ some Effect.fence := by
  constructor <;> decide

/-- C8, amended: in the effects of every call of `count_chars_tuned` exactly one fence
and exactly one accelerator instruction occur, the fence comes before the instruction,
and the effects between the two are exactly three `printf` calls (of the call
parameters, of an empty line and of the operand word); nothing else, so no store to
the buffer, happens between them, and the effect directly preceding the instruction is
the `printf` of the operand word. -/
theorem fence_then_prints_then_rocc (accel : Accel) (start needle chunk_size : Nat) :
    fenceCount (count_chars_tuned accel start needle chunk_size).2 = 1
      ∧ (roccCalls (count_chars_tuned accel start needle chunk_size).2).length = 1
      ∧ effectsBetween (count_chars_tuned accel start needle chunk_size).2
          = some [ Effect.printf "Counting '%c' with chunk size %u starting at address %p\n"
                     [needle % CHAR_MOD, chunk_size % UINT_MOD, start],
                   Effect.printf "\n" [],
                   Effect.printf "DEBUG: rs2_value = 0x%lx\n" [rs2_value needle chunk_size] ]
      ∧ effectBeforeRocc (count_chars_tuned accel start needle chunk_size).2
          = some (Effect.printf "DEBUG: rs2_value = 0x%lx\n" [rs2_value needle chunk_size]) := by
  have hb : effectsBetween (count_chars_tuned accel start needle chunk_size).2
      = some [ Effect.printf "Counting '%c' with chunk size %u starting at address %p\n"
                 [needle % CHAR_MOD, chunk_size % UINT_MOD, start],
               Effect.printf "\n" [],
               Effect.printf "DEBUG: rs2_value = 0x%lx\n" [rs2_value needle chunk_size] ] := by
    simp [count_chars_tuned, effectsBetween, untilRocc, Effect.isRocc]
  refine ⟨by simp [count_chars_tuned, fenceCount], by simp [count_chars_tuned, roccCalls],
    hb, ?_⟩
  simp [count_chars_tuned, effectBeforeRocc, Effect.isRocc]

end ChipCounter
